import Mathlib

/-!
Verification of the catalog filtering/shelf-assembly core
(`server/utils/queries/libraryFilters.js`).

JavaScript strings are modelled as lists of Unicode code points
(`JsStr := List Char`); bytes are modelled as `Nat` values below 256.
Platform functions used by the source (`decodeURIComponent`,
`Buffer.from(_, 'base64')`, `Buffer.prototype.toString('utf8')`,
`String.prototype.localeCompare`, `Array.prototype.sort`) are embedded by
their standard ECMAScript / Node semantics.  External collaborators
(the book/podcast query strategies, the ORM model conversions) are passed
in explicitly as function-valued parameters, so that "no storage query is
issued" is expressible as independence from those parameters.
-/

/-- JavaScript strings, modelled as lists of Unicode code points. -/
abbrev JsStr := List Char

/-- The replacement character U+FFFD emitted by lossy UTF-8 decoding. -/
def fffd : Char := Char.ofNat 0xFFFD

/-- UTF-8 encoding of a single Unicode scalar value (as produced by
`Buffer.from(s)` / the URI-encoding algorithm for one code point). -/
def utf8EncodeChar (v : Nat) : List Nat :=
  if v < 0x80 then [v]
  else if v < 0x800 then [0xC0 + v / 0x40, 0x80 + v % 0x40]
  else if v < 0x10000 then
    [0xE0 + v / 0x1000, 0x80 + v / 0x40 % 0x40, 0x80 + v % 0x40]
  else
    [0xF0 + v / 0x40000, 0x80 + v / 0x1000 % 0x40, 0x80 + v / 0x40 % 0x40,
      0x80 + v % 0x40]

/-- UTF-8 encoding of a string (each code point in sequence). -/
def utf8Encode : List Char → List Nat
  | [] => []
  | c :: rest => utf8EncodeChar c.toNat ++ utf8Encode rest

/-- Lower bound of the second byte of a three-byte UTF-8 sequence
(WHATWG decoder; lead byte 0xE0 forbids overlong encodings). -/
def cont2lo (b : Nat) : Nat := if b = 0xE0 then 0xA0 else 0x80

/-- Upper bound of the second byte of a three-byte UTF-8 sequence
(lead byte 0xED excludes surrogates). -/
def cont2hi (b : Nat) : Nat := if b = 0xED then 0x9F else 0xBF

/-- Lower bound of the second byte of a four-byte UTF-8 sequence
(lead byte 0xF0 forbids overlong encodings). -/
def cont3lo (b : Nat) : Nat := if b = 0xF0 then 0x90 else 0x80

/-- Upper bound of the second byte of a four-byte UTF-8 sequence
(lead byte 0xF4 caps code points at U+10FFFF). -/
def cont3hi (b : Nat) : Nat := if b = 0xF4 then 0x8F else 0xBF

/-- Lossy UTF-8 decoding with U+FFFD replacement, the semantics of
`Buffer.prototype.toString('utf8')` (WHATWG "UTF-8 decode" with
replacement on error), driven by a fuel argument so the recursion is
structural and kernel-evaluable.  Each step consumes at least one byte
and one unit of fuel, so fuel equal to the byte count (as supplied by
`utf8DecodeReplace`) never runs out. -/
def utf8DecodeReplaceF : Nat → List Nat → List Char
  | _, [] => []
  | 0, _ :: _ => []
  | fuel + 1, b :: bs =>
    if b < 0x80 then Char.ofNat b :: utf8DecodeReplaceF fuel bs
    else if b < 0xC2 then fffd :: utf8DecodeReplaceF fuel bs
    else if b < 0xE0 then
      match bs with
      | [] => [fffd]
      | b1 :: bs1 =>
        if 0x80 ≤ b1 ∧ b1 ≤ 0xBF then
          Char.ofNat ((b - 0xC0) * 0x40 + (b1 - 0x80)) :: utf8DecodeReplaceF fuel bs1
        else fffd :: utf8DecodeReplaceF fuel (b1 :: bs1)
    else if b < 0xF0 then
      match bs with
      | [] => [fffd]
      | b1 :: bs1 =>
        if cont2lo b ≤ b1 ∧ b1 ≤ cont2hi b then
          match bs1 with
          | [] => [fffd]
          | b2 :: bs2 =>
            if 0x80 ≤ b2 ∧ b2 ≤ 0xBF then
              Char.ofNat ((b - 0xE0) * 0x1000 + (b1 - 0x80) * 0x40 + (b2 - 0x80)) ::
                utf8DecodeReplaceF fuel bs2
            else fffd :: utf8DecodeReplaceF fuel (b2 :: bs2)
        else fffd :: utf8DecodeReplaceF fuel (b1 :: bs1)
    else if b < 0xF5 then
      match bs with
      | [] => [fffd]
      | b1 :: bs1 =>
        if cont3lo b ≤ b1 ∧ b1 ≤ cont3hi b then
          match bs1 with
          | [] => [fffd]
          | b2 :: bs2 =>
            if 0x80 ≤ b2 ∧ b2 ≤ 0xBF then
              match bs2 with
              | [] => [fffd]
              | b3 :: bs3 =>
                if 0x80 ≤ b3 ∧ b3 ≤ 0xBF then
                  Char.ofNat ((b - 0xF0) * 0x40000 + (b1 - 0x80) * 0x1000 +
                      (b2 - 0x80) * 0x40 + (b3 - 0x80)) :: utf8DecodeReplaceF fuel bs3
                else fffd :: utf8DecodeReplaceF fuel (b3 :: bs3)
            else fffd :: utf8DecodeReplaceF fuel (b2 :: bs2)
        else fffd :: utf8DecodeReplaceF fuel (b1 :: bs1)
    else fffd :: utf8DecodeReplaceF fuel bs

/-- Lossy UTF-8 decoding of a whole byte list. -/
def utf8DecodeReplace (l : List Nat) : List Char := utf8DecodeReplaceF l.length l

/-- The base64 alphabet character for a 6-bit value. -/
def b64Char (n : Nat) : Char :=
  if n < 26 then Char.ofNat (65 + n)
  else if n < 52 then Char.ofNat (97 + (n - 26))
  else if n < 62 then Char.ofNat (48 + (n - 52))
  else if n = 62 then '+'
  else '/'

/-- RFC 4648 base64 encoding with padding, the encoding used by the
client that produces filter tokens (`btoa`). -/
def base64Encode : List Nat → List Char
  | [] => []
  | [b0] => [b64Char (b0 / 4), b64Char (b0 % 4 * 16), '=', '=']
  | [b0, b1] =>
    [b64Char (b0 / 4), b64Char (b0 % 4 * 16 + b1 / 16), b64Char (b1 % 16 * 4), '=']
  | b0 :: b1 :: b2 :: rest =>
    b64Char (b0 / 4) :: b64Char (b0 % 4 * 16 + b1 / 16) ::
      b64Char (b1 % 16 * 4 + b2 / 64) :: b64Char (b2 % 64) :: base64Encode rest

/-- Node's base64 character table (`unbase64`): the RFC alphabet plus the
URL-safe variants `-` and `_`; every other character is invalid. -/
def unbase64 (c : Char) : Option Nat :=
  if 65 ≤ c.toNat ∧ c.toNat ≤ 90 then some (c.toNat - 65)
  else if 97 ≤ c.toNat ∧ c.toNat ≤ 122 then some (c.toNat - 97 + 26)
  else if 48 ≤ c.toNat ∧ c.toNat ≤ 57 then some (c.toNat - 48 + 52)
  else if c.toNat = 43 ∨ c.toNat = 45 then some 62
  else if c.toNat = 47 ∨ c.toNat = 95 then some 63
  else none

/-- Reassembles bytes from a stream of 6-bit values the way Node's base64
decoder does: a byte is emitted as soon as its bits are complete, so a
trailing group of 2 or 3 values still yields 1 or 2 bytes. -/
def b64Quads : List Nat → List Nat
  | s0 :: s1 :: s2 :: s3 :: rest =>
    (s0 * 4 + s1 / 16) :: (s1 % 16 * 16 + s2 / 4) :: (s2 % 4 * 64 + s3) ::
      b64Quads rest
  | [s0, s1, s2] => [s0 * 4 + s1 / 16, s1 % 16 * 16 + s2 / 4]
  | [s0, s1] => [s0 * 4 + s1 / 16]
  | _ => []

/-- Model of `Buffer.from(str, 'base64')` in Node: decoding stops at the first `=`,
characters outside the base64 table are skipped, and complete 6-bit
groups are packed into bytes. -/
def base64DecodeNode (s : List Char) : List Nat :=
  b64Quads ((s.takeWhile (fun c => c ≠ '=')).filterMap unbase64)

/-- Value of one hexadecimal digit (either case), as accepted by the URI
percent-escape parser. -/
def hexVal (c : Char) : Option Nat :=
  if 48 ≤ c.toNat ∧ c.toNat ≤ 57 then some (c.toNat - 48)
  else if 65 ≤ c.toNat ∧ c.toNat ≤ 70 then some (c.toNat - 55)
  else if 97 ≤ c.toNat ∧ c.toNat ≤ 102 then some (c.toNat - 87)
  else none

/-- Byte value of a two-hex-digit percent escape. -/
def hexPair (h1 h2 : Char) : Option Nat :=
  match hexVal h1, hexVal h2 with
  | some a, some b => some (a * 16 + b)
  | _, _ => none

/-- ECMAScript `decodeURIComponent`, driven by a fuel argument so the
recursion is structural: copies ordinary characters, parses `%XX`
escapes, and requires every escaped multi-byte sequence to be a valid
UTF-8 encoding of a code point; `none` models a thrown `URIError`.
Each step consumes at least one character and one unit of fuel, so fuel
equal to the input length (as supplied by `decodeURIComponentL`) never
runs out. -/
def decodeURIComponentF : Nat → List Char → Option (List Char)
  | _, [] => some []
  | 0, _ :: _ => none
  | fuel + 1, c :: rest =>
    if c = '%' then
      match rest with
      | h1 :: h2 :: rest1 =>
        match hexPair h1 h2 with
        | none => none
        | some b =>
          if b < 0x80 then (decodeURIComponentF fuel rest1).map (Char.ofNat b :: ·)
          else if b < 0xC2 then none
          else if b < 0xE0 then
            match rest1 with
            | '%' :: h3 :: h4 :: rest2 =>
              match hexPair h3 h4 with
              | none => none
              | some b1 =>
                if 0x80 ≤ b1 ∧ b1 ≤ 0xBF then
                  (decodeURIComponentF fuel rest2).map
                    (Char.ofNat ((b - 0xC0) * 0x40 + (b1 - 0x80)) :: ·)
                else none
            | _ => none
          else if b < 0xF0 then
            match rest1 with
            | '%' :: h3 :: h4 :: '%' :: h5 :: h6 :: rest2 =>
              match hexPair h3 h4, hexPair h5 h6 with
              | some b1, some b2 =>
                if (cont2lo b ≤ b1 ∧ b1 ≤ cont2hi b) ∧ (0x80 ≤ b2 ∧ b2 ≤ 0xBF) then
                  (decodeURIComponentF fuel rest2).map
                    (Char.ofNat ((b - 0xE0) * 0x1000 + (b1 - 0x80) * 0x40 + (b2 - 0x80)) :: ·)
                else none
              | _, _ => none
            | _ => none
          else if b < 0xF5 then
            match rest1 with
            | '%' :: h3 :: h4 :: '%' :: h5 :: h6 :: '%' :: h7 :: h8 :: rest2 =>
              match hexPair h3 h4, hexPair h5 h6, hexPair h7 h8 with
              | some b1, some b2, some b3 =>
                if (cont3lo b ≤ b1 ∧ b1 ≤ cont3hi b) ∧ (0x80 ≤ b2 ∧ b2 ≤ 0xBF) ∧
                    (0x80 ≤ b3 ∧ b3 ≤ 0xBF) then
                  (decodeURIComponentF fuel rest2).map
                    (Char.ofNat ((b - 0xF0) * 0x40000 + (b1 - 0x80) * 0x1000 +
                      (b2 - 0x80) * 0x40 + (b3 - 0x80)) :: ·)
                else none
              | _, _, _ => none
            | _ => none
          else none
      | _ => none
    else (decodeURIComponentF fuel rest).map (c :: ·)

/-- ECMAScript `decodeURIComponent` on a whole string. -/
def decodeURIComponentL (l : List Char) : Option (List Char) :=
  decodeURIComponentF l.length l

/-- The characters `encodeURIComponent` leaves unescaped
(ASCII alphanumerics and `- _ . ! ~ * ' ( )`). -/
def uriUnreserved (c : Char) : Bool :=
  (65 ≤ c.toNat && c.toNat ≤ 90) || (97 ≤ c.toNat && c.toNat ≤ 122) ||
  (48 ≤ c.toNat && c.toNat ≤ 57) ||
  (c = '-' || c = Char.ofNat 95 || c = '.' || c = '!' || c = '~' || c = '*' ||
    c = Char.ofNat 39 || c = '(' || c = ')')

/-- Upper-case hexadecimal digit for a 4-bit value. -/
def hexDigitUpper (n : Nat) : Char :=
  if n < 10 then Char.ofNat (48 + n) else Char.ofNat (55 + n)

/-- Percent-escapes of a byte sequence (`%XX` per byte, upper case). -/
def pctBytes : List Nat → List Char
  | [] => []
  | b :: bs => '%' :: hexDigitUpper (b / 16) :: hexDigitUpper (b % 16) :: pctBytes bs

/-- ECMAScript `encodeURIComponent`: unreserved characters are copied,
every other code point is UTF-8 encoded and percent-escaped. -/
def encodeURIComponentL : List Char → List Char
  | [] => []
  | c :: rest =>
    (if uriUnreserved c then [c] else pctBytes (utf8EncodeChar c.toNat)) ++
      encodeURIComponentL rest

/-- The function `decode(text)` from `libraryFilters.js`:
`Buffer.from(decodeURIComponent(text), 'base64').toString()`.
`none` models the call throwing (only `decodeURIComponent` can throw). -/
def jsDecode (text : JsStr) : Option JsStr :=
  (decodeURIComponentL text).map (fun u => utf8DecodeReplace (base64DecodeNode u))

/-- The client-side encoder that produces filter tokens:
percent-encoding of the base64 of the UTF-8 bytes of the value
(`encodeURIComponent(btoa(value))`). -/
def jsEncodeToken (s : JsStr) : JsStr :=
  encodeURIComponentL (base64Encode (utf8Encode s))

/-- Model of `String.prototype.replace` with a string pattern: replaces the first
occurrence of `pat` in `s` by `rep` (the whole string is returned
unchanged when `pat` does not occur). -/
def jsReplaceFirst (pat rep : JsStr) : JsStr → JsStr
  | [] => if pat.isPrefixOf [] then rep else []
  | c :: rest =>
    if pat.isPrefixOf (c :: rest) then rep ++ (c :: rest).drop pat.length
    else c :: jsReplaceFirst pat rep rest

/-- The fixed known-group list of `getFilteredLibraryItems`
(line 24 of the source). -/
def searchGroups : List JsStr :=
  ["genres".data, "tags".data, "series".data, "authors".data, "progress".data,
    "narrators".data, "publishers".data, "missing".data, "languages".data,
    "tracks".data, "ebooks".data]

/-- Lines 21–28 of `getFilteredLibraryItems`: classification of `filterBy`
into `(filterGroup, filterValue)`.  A `none` result models the call
rejecting because `decode` threw; `some (none, none)` is the no-filter
case (`filterBy` null/undefined/empty, all falsy in JS). -/
def parseFilterBy (filterBy : Option JsStr) : Option (Option JsStr × Option JsStr) :=
  match filterBy with
  | none => some (none, none)
  | some fb =>
    if fb = [] then some (none, none)
    else
      match searchGroups.find? (fun g => (g ++ ['.']).isPrefixOf fb) with
      | some g =>
        (jsDecode (jsReplaceFirst (g ++ ['.']) [] fb)).map (fun v => (some g, some v))
      | none => some (some fb, none)

/-- A storage-layer library item row as handed back by the query
strategies: the associations and columns this core inspects, plus an
opaque `key` identifying the row. -/
structure LIRow where
  rssFeed : Option Nat := none
  size : Option Nat := none
  series : Option Nat := none
  key : Nat := 0
deriving DecidableEq

/-- Result shape of a storage query: raw rows plus the pre-pagination
match count. -/
structure QueryResult where
  libraryItems : List LIRow := []
  count : Nat := 0
deriving DecidableEq

/-- Minified media metadata of an assembled item (`media.metadata`). -/
structure MinMetadata where
  series : Option Nat := none
deriving DecidableEq

/-- Minified media payload of an assembled item (`media`). -/
structure MinMedia where
  size : Option Nat := none
  metadata : MinMetadata := {}
deriving DecidableEq

/-- The minified, API-ready projection of a library item
(`getOldLibraryItem(li).toJSONMinified()` output, as far as this core
touches it); `tag` stands for all the fields this core never touches. -/
structure OldItem where
  media : MinMedia := {}
  rssFeed : Option Nat := none
  tag : Nat := 0
deriving DecidableEq

/-- Result shape of a shelf operation: minified items plus total count. -/
structure ShelfResult where
  libraryItems : List OldItem := []
  count : Nat := 0
deriving DecidableEq

/-- A library (`oldLibrary`): its id and `mediaType` string. -/
structure Library where
  id : Nat := 0
  mediaType : JsStr := []
deriving DecidableEq

/-- A loaded `book` model row inside a series query: its `libraryItem`
association (an opaque `toJSON` payload when present) and an opaque key. -/
structure BookRow where
  libraryItem : Option Nat := none
  bkey : Nat := 0
deriving DecidableEq

/-- A loaded `bookSeries` join row: the series-position string and the
associated book. -/
structure BSRow where
  sequence : Option JsStr := none
  book : BookRow := {}
deriving DecidableEq

/-- A loaded `series` model row from `findAndCountAll`, with its
`bookSeries` association, optionally loaded feeds, and an opaque key
covering all other stored columns. -/
structure SeriesRow where
  feeds : Option (List Nat) := none
  bookSeries : List BSRow := []
  skey : Nat := 0
deriving DecidableEq

/-- The `oldSeries` projection returned to the caller: the base
`getOldSeries().toJSON()` payload, an optional minified feed, and the
assembled book list. -/
structure OldSeries where
  base : Nat := 0
  rssFeed : Option Nat := none
  books : List OldItem := []
deriving DecidableEq

/-- The external collaborators consumed by this core, passed explicitly:
the two filter strategies, the continue-series query, and the ORM/view
conversions.  Field order of the strategy functions mirrors the JS call
sites (libraryId, userId, filterGroup, filterValue, sortBy, sortDesc,
[collapseseries,] include, limit, offset). -/
structure Externals where
  bookFiltered : Nat → JsStr → Option JsStr → Option JsStr → Option JsStr →
    Bool → Bool → List JsStr → Nat → Nat → QueryResult := fun _ _ _ _ _ _ _ _ _ _ => {}
  podcastFiltered : Nat → JsStr → Option JsStr → Option JsStr → Option JsStr →
    Bool → List JsStr → Nat → Nat → QueryResult := fun _ _ _ _ _ _ _ _ _ => {}
  bookContinueSeries : Nat → JsStr → List JsStr → Nat → Nat → QueryResult :=
    fun _ _ _ _ _ => {}
  minify : LIRow → OldItem := fun _ => {}
  minFeed : Nat → Nat := fun f => f
  getOldSeriesJson : SeriesRow → Nat := fun _ => 0
  minifySeriesItem : Nat → BookRow → OldItem := fun _ _ => {}

/-- Options bag of `getFilteredLibraryItems` (the JS `include` field is
called `incl` here because `include` is a Lean keyword). -/
structure FilterOptions where
  filterBy : Option JsStr := none
  sortBy : Option JsStr := none
  sortDesc : Bool := false
  limit : Nat := 0
  offset : Nat := 0
  collapseseries : Bool := false
  incl : List JsStr := []
  mediaType : Option JsStr := none
deriving DecidableEq

/-- The operation `getFilteredLibraryItems` (lines 18–35): parse `filterBy`, then
dispatch on `options.mediaType === 'book'`; every other media type goes
to the podcast strategy, which takes no `collapseseries` argument.
`none` models the call rejecting because `decode` threw. -/
def getFilteredLibraryItems (ext : Externals) (library : Library) (userId : JsStr)
    (options : FilterOptions) : Option QueryResult :=
  match parseFilterBy options.filterBy with
  | none => none
  | some (filterGroup, filterValue) =>
    if options.mediaType = some "book".data then
      some (ext.bookFiltered library.id userId filterGroup filterValue
        options.sortBy options.sortDesc options.collapseseries options.incl
        options.limit options.offset)
    else
      some (ext.podcastFiltered library.id userId filterGroup filterValue
        options.sortBy options.sortDesc options.incl options.limit options.offset)

/-- Line 53–55: `if (li.rssFeed) oldLibraryItem.rssFeed = getOldFeed(li.rssFeed).toJSONMinified()`:
a loaded feed association is an object, truthy exactly when present. -/
def enrichFeed (ext : Externals) (li : LIRow) (old : OldItem) : OldItem :=
  match li.rssFeed with
  | some f => { old with rssFeed := some (ext.minFeed f) }
  | none => old

/-- JS truthiness of a numeric column: absent (`null`/`undefined`) and
`0` are falsy. -/
def jsNumTruthy : Option Nat → Bool
  | none => false
  | some n => n != 0

/-- The guard `if (li.size && !oldLibraryItem.media.size) oldLibraryItem.media.size = li.size`
(lines 85–87 and 100–102 of the source). -/
def sizeFallback (li : LIRow) (old : OldItem) : OldItem :=
  if jsNumTruthy li.size && !jsNumTruthy old.media.size then
    { old with media := { old.media with size := li.size } }
  else old

/-- The guard `if (li.series) oldLibraryItem.media.metadata.series = li.series`
(lines 126–128 of the source). -/
def seriesAttach (li : LIRow) (old : OldItem) : OldItem :=
  match li.series with
  | some s =>
    { old with media :=
        { old.media with metadata := { old.media.metadata with series := some s } } }
  | none => old

/-- The operation `getLibraryItemsInProgress` (lines 46–66): book libraries run the
book strategy with the fixed progress filter preset and enrich with the
feed; every other media type returns `{libraryItems: [], count: 0}`. -/
def getLibraryItemsInProgress (ext : Externals) (library : Library) (userId : JsStr)
    (incl : List JsStr) (limit : Nat) (ebook : Bool) : ShelfResult :=
  if library.mediaType = "book".data then
    let filterValue := if ebook then "ebook-in-progress".data else "audio-in-progress".data
    let q := ext.bookFiltered library.id userId (some "progress".data) (some filterValue)
      (some "progress".data) true false incl limit 0
    { libraryItems := q.libraryItems.map (fun li => enrichFeed ext li (ext.minify li)),
      count := q.count }
  else
    { libraryItems := [], count := 0 }

/-- The operation `getLibraryItemsMostRecentlyAdded` (lines 76–108): fixed
`addedAt`-descending preset, dispatched by media type, enriching each
item with the feed and the storage-size fallback. -/
def getLibraryItemsMostRecentlyAdded (ext : Externals) (library : Library)
    (userId : JsStr) (incl : List JsStr) (limit : Nat) : ShelfResult :=
  if library.mediaType = "book".data then
    let q := ext.bookFiltered library.id userId none none (some "addedAt".data)
      true false incl limit 0
    { libraryItems := q.libraryItems.map
        (fun li => sizeFallback li (enrichFeed ext li (ext.minify li))),
      count := q.count }
  else
    let q := ext.podcastFiltered library.id userId none none (some "addedAt".data)
      true incl limit 0
    { libraryItems := q.libraryItems.map
        (fun li => sizeFallback li (enrichFeed ext li (ext.minify li))),
      count := q.count }

/-- The operation `getLibraryItemsContinueSeries` (lines 118–133): delegates to the
book strategy's continue-series query (with no media-type guard) and
enriches each item with the feed and the series annotation. -/
def getLibraryItemsContinueSeries (ext : Externals) (library : Library)
    (userId : JsStr) (incl : List JsStr) (limit : Nat) : ShelfResult :=
  let q := ext.bookContinueSeries library.id userId incl limit 0
  { libraryItems := q.libraryItems.map
      (fun li => seriesAttach li (enrichFeed ext li (ext.minify li))),
    count := q.count }

/-- Tokens of ICU numeric collation: maximal digit runs compare by
numeric value, all other characters individually. -/
inductive Tok where
  | num : Nat → Tok
  | ch : Char → Tok
deriving DecidableEq

/-- Numeric value of a digit run. -/
def digitsVal (l : List Char) : Nat :=
  l.foldl (fun acc c => acc * 10 + (c.toNat - 48)) 0

/-- Tokenization used by `localeCompare(_, undefined, {numeric: true,
sensitivity: 'base'})`, driven by a fuel argument so the recursion is
structural: maximal digit runs become numeric tokens, every other
character becomes a case-folded character token.  Each step consumes at
least one character and one unit of fuel, so fuel equal to the input
length (as supplied by `natTokens`) never runs out. -/
def natTokensF : Nat → List Char → List Tok
  | _, [] => []
  | 0, _ :: _ => []
  | fuel + 1, c :: rest =>
    if c.isDigit then
      Tok.num (digitsVal (c :: rest.takeWhile Char.isDigit)) ::
        natTokensF fuel (rest.dropWhile Char.isDigit)
    else Tok.ch c.toLower :: natTokensF fuel rest

/-- Tokenization of a whole string. -/
def natTokens (l : List Char) : List Tok := natTokensF l.length l

/-- Order between two collation tokens: numeric tokens compare by value;
character tokens compare by code point; a numeric token sorts against a
(non-digit) character token the way its digits do, i.e. below characters
above `'9'` and above characters below `'0'`. -/
def tokCmp : Tok → Tok → Ordering
  | Tok.num m, Tok.num n => compare m n
  | Tok.num _, Tok.ch c => if c.toNat < 48 then Ordering.gt else Ordering.lt
  | Tok.ch c, Tok.num _ => if c.toNat < 48 then Ordering.lt else Ordering.gt
  | Tok.ch a, Tok.ch b => compare a.toNat b.toNat

/-- Lexicographic extension of `tokCmp` to token lists. -/
def listCmp : List Tok → List Tok → Ordering
  | [], [] => Ordering.eq
  | [], _ :: _ => Ordering.lt
  | _ :: _, [] => Ordering.gt
  | a :: as, b :: bs =>
    match tokCmp a b with
    | Ordering.eq => listCmp as bs
    | o => o

/-- An `Ordering` as the `-1/0/1` integer `localeCompare` returns. -/
def ordToInt : Ordering → Int
  | Ordering.lt => -1
  | Ordering.eq => 0
  | Ordering.gt => 1

/-- Model of `a.localeCompare(b, undefined, {numeric: true, sensitivity:
'base'})`: numeric-aware, case-insensitive comparison. -/
def localeCompareNB (a b : JsStr) : Int := ordToInt (listCmp (natTokens a) (natTokens b))

/-- JS truthiness of a sequence string: `null`, `undefined` and the empty
string are falsy. -/
def seqTruthy : Option JsStr → Bool
  | none => false
  | some s => s != []

/-- The sort comparator of `getSeriesMostRecentlyAdded` (lines 186–193):
falsy sequences sort last, otherwise numeric-aware `localeCompare`. -/
def seqCompare (a b : Option JsStr) : Int :=
  if seqTruthy a = false then 1
  else if seqTruthy b = false then -1
  else localeCompareNB (a.getD []) (b.getD [])

/-- Stable insertion of `x` into `l`: `x` is placed before the first
element it does not compare after. -/
def jsInsert (cmp : α → α → Int) (x : α) : List α → List α
  | [] => [x]
  | y :: ys => if cmp x y ≤ 0 then x :: y :: ys else y :: jsInsert cmp x ys

/-- Model of `Array.prototype.sort(cmp)` as a stable comparison sort
(ECMAScript leaves the order unspecified when `cmp` is inconsistent). -/
def jsSortStable (cmp : α → α → Int) : List α → List α
  | [] => []
  | x :: xs => jsInsert cmp x (jsSortStable cmp xs)

/-- The comparator applied to `bookSeries` rows (compares `sequence`). -/
def bsCompare (a b : BSRow) : Int := seqCompare a.sequence b.sequence

/-- The correctly-shelved relation on adjacent sorted `bookSeries` rows:
either the comparator places them in nondecreasing order, or both have
falsy sequences (the comparator is inconsistent on that pair and such
rows are simply grouped at the end). -/
def bsOrderedRel (a b : BSRow) : Prop :=
  seqCompare a.sequence b.sequence ≤ 0 ∨
    (seqTruthy a.sequence = false ∧ seqTruthy b.sequence = false)

/-- The body of the books loop of `getSeriesMostRecentlyAdded` (lines
194–200): `toJSON` the book's library item, delete the `libraryItem`
association off the loaded book, graft the (now mutated) book in as
`media`, and minify.  Returns the projection and the mutated row;
`none` models the TypeError thrown when `libraryItem` was not loaded. -/
def assembleBook (ext : Externals) (bs : BSRow) : Option (OldItem × BSRow) :=
  match bs.book.libraryItem with
  | none => none
  | some liJson =>
    let book2 : BookRow := { bs.book with libraryItem := none }
    some (ext.minifySeriesItem liJson book2, { bs with book := book2 })

/-- One iteration of the series loop of `getSeriesMostRecentlyAdded`
(lines 178–202): build the old-series JSON, attach the first feed when
loaded, sort `bookSeries` in place, and assemble the book projections.
Returns the projection together with the mutated stored row. -/
def assembleSeries (ext : Externals) (s : SeriesRow) : Option (OldSeries × SeriesRow) :=
  let sorted := jsSortStable bsCompare s.bookSeries
  match List.mapM (assembleBook ext) sorted with
  | none => none
  | some pairs =>
    some ({ base := ext.getOldSeriesJson s,
            rssFeed := match s.feeds with
              | some (f :: _) => some (ext.minFeed f)
              | _ => none,
            books := pairs.map Prod.fst },
          { s with bookSeries := pairs.map Prod.snd })

/-- The operation `getSeriesMostRecentlyAdded` (lines 142–208).  The `findAndCountAll`
storage result is passed in as `seriesRows`/`count` (its contents — which
series, their order by `createdAt` descending, whether feeds are included
— are owned by the storage layer).  The second component of the result is
the post-call state of the loaded rows, making mutation observable. -/
def getSeriesMostRecentlyAdded (ext : Externals) (seriesRows : List SeriesRow)
    (count : Nat) : Option ((List OldSeries × Nat) × List SeriesRow) :=
  match List.mapM (assembleSeries ext) seriesRows with
  | none => none
  | some pairs => some ((pairs.map Prod.fst, count), pairs.map Prod.snd)

/-- The projection applied to each (sorted) `bookSeries` row when
building `oldSeries.books`: minify the composite of the book's
`libraryItem` JSON and the book record with its `libraryItem`
association deleted. -/
def assembledBookProj (ext : Externals) (bs : BSRow) : OldItem :=
  ext.minifySeriesItem (bs.book.libraryItem.getD 0)
    { bs.book with libraryItem := none }

/-- A `bookSeries` row after the series loop ran over it: the book's
`libraryItem` association has been deleted. -/
def mutatedBSRow (bs : BSRow) : BSRow :=
  { bs with book := { bs.book with libraryItem := none } }

/-- A stored series row after `getSeriesMostRecentlyAdded` ran over it:
`bookSeries` sorted in place by the sequence comparator, with each
book's `libraryItem` association deleted. -/
def mutatedSeriesRow (s : SeriesRow) : SeriesRow :=
  { s with bookSeries := (jsSortStable bsCompare s.bookSeries).map mutatedBSRow }

/-- The `media.size` an item ends up with after the most-recently-added
enrichment: the storage-level size when it is truthy and the minified
media size is not, otherwise the minified media size. -/
def fallbackSizeVal (ext : Externals) (li : LIRow) : Option Nat :=
  if jsNumTruthy li.size && !jsNumTruthy (ext.minify li).media.size then li.size
  else (ext.minify li).media.size

/-- A concrete book library used in witnesses. -/
def exBookLib : Library := { id := 1, mediaType := "book".data }

/-- A concrete podcast library used in witnesses and counterexamples. -/
def exPodLib : Library := { id := 2, mediaType := "podcast".data }

/-- Concrete externals whose book strategy returns one row that carries a
storage-level size of 5 while the minifier reports no media size. -/
def exC8Ext : Externals :=
  { bookFiltered := fun _ _ _ _ _ _ _ _ _ _ =>
      { libraryItems := [{ size := some 5 }], count := 1 } }

/-- Concrete externals whose continue-series query reports 7 matches. -/
def exC5Ext : Externals :=
  { bookContinueSeries := fun _ _ _ _ _ => { count := 7 } }

/-- Concrete externals for the series shelf whose minifier records the
`libraryItem` JSON it received in the item's opaque tag. -/
def exSeriesExt : Externals :=
  { minifySeriesItem := fun liJson _ => { tag := liJson } }

/-- One concrete stored series with two books, sequenced "2" and "1",
whose `libraryItem` associations are the payloads 7 and 8. -/
def exC9Rows : List SeriesRow :=
  [{ bookSeries :=
      [{ sequence := some "2".data, book := { libraryItem := some 7, bkey := 1 } },
       { sequence := some "1".data, book := { libraryItem := some 8, bkey := 2 } }] }]

/-- The result of the series shelf on the concrete example above. -/
def exSeriesOut : (List OldSeries × Nat) × List SeriesRow :=
  (getSeriesMostRecentlyAdded exSeriesExt exC9Rows 1).getD (([], 0), [])

/-- The scalar-value bounds carried by every `Char`. -/
theorem charValidNat (c : Char) :
    c.toNat < 0xD800 ∨ (0xDFFF < c.toNat ∧ c.toNat < 0x110000) := c.valid

/-- Decoding the UTF-8 bytes of one code point in front of any byte tail
yields that code point followed by the decode of the tail; one unit of
fuel is used per decoded code point. -/
theorem utf8DecodeReplaceF_encodeChar (c : Char) (f : Nat) (rest : List Nat) :
    utf8DecodeReplaceF (f + 1) (utf8EncodeChar c.toNat ++ rest) =
      c :: utf8DecodeReplaceF f rest := by
  have hv := charValidNat c
  have hofnat : Char.ofNat c.toNat = c := Char.ofNat_toNat c
  set v := c.toNat with hvdef
  by_cases h1 : v < 0x80
  · simp only [utf8EncodeChar, if_pos h1, List.cons_append, List.nil_append]
    rw [utf8DecodeReplaceF.eq_def]
    dsimp only
    simp only [if_pos h1, hofnat]
  · by_cases h2 : v < 0x800
    · simp only [utf8EncodeChar, if_neg h1, if_pos h2, List.cons_append, List.nil_append]
      rw [utf8DecodeReplaceF.eq_def]
      dsimp only
      have hb1 : ¬ (0xC0 + v / 0x40 < 0x80) := by omega
      have hb2 : ¬ (0xC0 + v / 0x40 < 0xC2) := by omega
      have hb3 : 0xC0 + v / 0x40 < 0xE0 := by omega
      rw [if_neg hb1, if_neg hb2, if_pos hb3]
      have hc : 0x80 ≤ 0x80 + v % 0x40 ∧ 0x80 + v % 0x40 ≤ 0xBF := by omega
      simp only [if_pos hc]
      have harith : (0xC0 + v / 0x40 - 0xC0) * 0x40 + (0x80 + v % 0x40 - 0x80) = v := by
        omega
      rw [harith, hofnat]
    · by_cases h3 : v < 0x10000
      · simp only [utf8EncodeChar, if_neg h1, if_neg h2, if_pos h3, List.cons_append,
          List.nil_append]
        rw [utf8DecodeReplaceF.eq_def]
        dsimp only
        have hb1 : ¬ (0xE0 + v / 0x1000 < 0x80) := by omega
        have hb2 : ¬ (0xE0 + v / 0x1000 < 0xC2) := by omega
        have hb3 : ¬ (0xE0 + v / 0x1000 < 0xE0) := by omega
        have hb4 : 0xE0 + v / 0x1000 < 0xF0 := by omega
        rw [if_neg hb1, if_neg hb2, if_neg hb3, if_pos hb4]
        have hc1 : cont2lo (0xE0 + v / 0x1000) ≤ 0x80 + v / 0x40 % 0x40 ∧
            0x80 + v / 0x40 % 0x40 ≤ cont2hi (0xE0 + v / 0x1000) := by
          unfold cont2lo cont2hi
          constructor <;> split <;> omega
        simp only [if_pos hc1]
        have hc2 : 0x80 ≤ 0x80 + v % 0x40 ∧ 0x80 + v % 0x40 ≤ 0xBF := by omega
        simp only [if_pos hc2]
        have harith : (0xE0 + v / 0x1000 - 0xE0) * 0x1000 +
            (0x80 + v / 0x40 % 0x40 - 0x80) * 0x40 + (0x80 + v % 0x40 - 0x80) = v := by
          omega
        rw [harith, hofnat]
      · have h4 : v < 0x110000 := by omega
        simp only [utf8EncodeChar, if_neg h1, if_neg h2, if_neg h3, List.cons_append,
          List.nil_append]
        rw [utf8DecodeReplaceF.eq_def]
        dsimp only
        have hb1 : ¬ (0xF0 + v / 0x40000 < 0x80) := by omega
        have hb2 : ¬ (0xF0 + v / 0x40000 < 0xC2) := by omega
        have hb3 : ¬ (0xF0 + v / 0x40000 < 0xE0) := by omega
        have hb4 : ¬ (0xF0 + v / 0x40000 < 0xF0) := by omega
        have hb5 : 0xF0 + v / 0x40000 < 0xF5 := by omega
        rw [if_neg hb1, if_neg hb2, if_neg hb3, if_neg hb4, if_pos hb5]
        have hc1 : cont3lo (0xF0 + v / 0x40000) ≤ 0x80 + v / 0x1000 % 0x40 ∧
            0x80 + v / 0x1000 % 0x40 ≤ cont3hi (0xF0 + v / 0x40000) := by
          unfold cont3lo cont3hi
          constructor <;> split <;> omega
        simp only [if_pos hc1]
        have hc2 : 0x80 ≤ 0x80 + v / 0x40 % 0x40 ∧ 0x80 + v / 0x40 % 0x40 ≤ 0xBF := by
          omega
        simp only [if_pos hc2]
        have hc3 : 0x80 ≤ 0x80 + v % 0x40 ∧ 0x80 + v % 0x40 ≤ 0xBF := by omega
        simp only [if_pos hc3]
        have harith : (0xF0 + v / 0x40000 - 0xF0) * 0x40000 +
            (0x80 + v / 0x1000 % 0x40 - 0x80) * 0x1000 +
            (0x80 + v / 0x40 % 0x40 - 0x80) * 0x40 + (0x80 + v % 0x40 - 0x80) = v := by
          omega
        rw [harith, hofnat]

/-- UTF-8 encode/decode round trip over whole strings, with any
sufficient fuel. -/
theorem utf8DecodeReplaceF_utf8Encode (s : List Char) : ∀ fuel : Nat,
    s.length ≤ fuel → utf8DecodeReplaceF fuel (utf8Encode s) = s := by
  induction s with
  | nil => intro fuel _; cases fuel <;> rfl
  | cons c rest ih =>
    intro fuel hlen
    rw [List.length_cons] at hlen
    obtain ⟨f, rfl⟩ : ∃ f, fuel = f + 1 := ⟨fuel - 1, by omega⟩
    rw [utf8Encode, utf8DecodeReplaceF_encodeChar, ih f (by omega)]

/-- Each code point yields at least one UTF-8 byte. -/
theorem utf8EncodeChar_length_pos (v : Nat) : 1 ≤ (utf8EncodeChar v).length := by
  unfold utf8EncodeChar
  split
  · simp
  · split
    · simp
    · split <;> simp

/-- A string never has more code points than UTF-8 bytes. -/
theorem length_le_utf8Encode_length (s : List Char) :
    s.length ≤ (utf8Encode s).length := by
  induction s with
  | nil => simp [utf8Encode]
  | cons c rest ih =>
    rw [utf8Encode, List.length_append, List.length_cons]
    have := utf8EncodeChar_length_pos c.toNat
    omega

/-- UTF-8 encode/decode round trip over whole strings. -/
theorem utf8DecodeReplace_utf8Encode (s : List Char) :
    utf8DecodeReplace (utf8Encode s) = s :=
  utf8DecodeReplaceF_utf8Encode s (utf8Encode s).length (length_le_utf8Encode_length s)

/-- Every byte of the UTF-8 encoding of a code point fits in one byte. -/
theorem utf8EncodeChar_lt_256 (c : Char) : ∀ b ∈ utf8EncodeChar c.toNat, b < 256 := by
  have hv := charValidNat c
  intro b hb
  unfold utf8EncodeChar at hb
  by_cases h1 : c.toNat < 0x80
  · rw [if_pos h1] at hb
    simp only [List.mem_singleton] at hb
    omega
  · rw [if_neg h1] at hb
    by_cases h2 : c.toNat < 0x800
    · rw [if_pos h2] at hb
      simp only [List.mem_cons, List.not_mem_nil, or_false] at hb
      rcases hb with rfl | rfl <;> omega
    · rw [if_neg h2] at hb
      by_cases h3 : c.toNat < 0x10000
      · rw [if_pos h3] at hb
        simp only [List.mem_cons, List.not_mem_nil, or_false] at hb
        rcases hb with rfl | rfl | rfl <;> omega
      · rw [if_neg h3] at hb
        simp only [List.mem_cons, List.not_mem_nil, or_false] at hb
        rcases hb with rfl | rfl | rfl | rfl <;> omega

/-- Every byte of the UTF-8 encoding of a string fits in one byte. -/
theorem utf8Encode_lt_256 (s : List Char) : ∀ b ∈ utf8Encode s, b < 256 := by
  induction s with
  | nil => intro b hb; simp [utf8Encode] at hb
  | cons c rest ih =>
    intro b hb
    rw [utf8Encode, List.mem_append] at hb
    rcases hb with hb | hb
    · exact utf8EncodeChar_lt_256 c b hb
    · exact ih b hb

/-- The base64 table inverts the base64 alphabet. -/
theorem unbase64_b64Char : ∀ n, n < 64 → unbase64 (b64Char n) = some n := by decide

/-- Base64 alphabet characters are not the padding character. -/
theorem b64Char_ne_pad : ∀ n, n < 64 → b64Char n ≠ '=' := by decide

/-- Base64 alphabet characters are ASCII. -/
theorem b64Char_ascii : ∀ n, n < 64 → (b64Char n).toNat < 0x80 := by decide

/-- Unfolding `b64Quads` on a two-value tail. -/
theorem b64Quads_two (s0 s1 : Nat) : b64Quads [s0, s1] = [s0 * 4 + s1 / 16] := rfl

/-- Unfolding `b64Quads` on a three-value tail. -/
theorem b64Quads_three (s0 s1 s2 : Nat) :
    b64Quads [s0, s1, s2] = [s0 * 4 + s1 / 16, s1 % 16 * 16 + s2 / 4] := rfl

/-- Unfolding `b64Quads` on a full group. -/
theorem b64Quads_cons4 (s0 s1 s2 s3 : Nat) (rest : List Nat) :
    b64Quads (s0 :: s1 :: s2 :: s3 :: rest) =
      (s0 * 4 + s1 / 16) :: (s1 % 16 * 16 + s2 / 4) :: (s2 % 4 * 64 + s3) ::
        b64Quads rest := rfl

/-- Node's base64 decoder inverts base64 encoding on byte lists. -/
theorem base64DecodeNode_encode : ∀ bs : List Nat, (∀ b ∈ bs, b < 256) →
    base64DecodeNode (base64Encode bs) = bs := by
  intro bs
  induction bs using base64Encode.induct with
  | case1 =>
    intro _
    rfl
  | case2 b0 =>
    intro h
    have hb0 : b0 < 256 := h b0 (by simp)
    have e0 := unbase64_b64Char (b0 / 4) (by omega)
    have e1 := unbase64_b64Char (b0 % 4 * 16) (by omega)
    have n0 := b64Char_ne_pad (b0 / 4) (by omega)
    have n1 := b64Char_ne_pad (b0 % 4 * 16) (by omega)
    rw [base64Encode, base64DecodeNode]
    rw [List.takeWhile_cons_of_pos (by simpa using n0),
      List.takeWhile_cons_of_pos (by simpa using n1),
      List.takeWhile_cons_of_neg (by decide)]
    simp only [List.filterMap_cons, e0, e1]
    rw [List.filterMap_nil, b64Quads_two]
    simp only [List.cons.injEq, and_true]
    omega
  | case3 b0 b1 =>
    intro h
    have hb0 : b0 < 256 := h b0 (by simp)
    have hb1 : b1 < 256 := h b1 (by simp)
    have e0 := unbase64_b64Char (b0 / 4) (by omega)
    have e1 := unbase64_b64Char (b0 % 4 * 16 + b1 / 16) (by omega)
    have e2 := unbase64_b64Char (b1 % 16 * 4) (by omega)
    have n0 := b64Char_ne_pad (b0 / 4) (by omega)
    have n1 := b64Char_ne_pad (b0 % 4 * 16 + b1 / 16) (by omega)
    have n2 := b64Char_ne_pad (b1 % 16 * 4) (by omega)
    rw [base64Encode, base64DecodeNode]
    rw [List.takeWhile_cons_of_pos (by simpa using n0),
      List.takeWhile_cons_of_pos (by simpa using n1),
      List.takeWhile_cons_of_pos (by simpa using n2),
      List.takeWhile_cons_of_neg (by decide)]
    simp only [List.filterMap_cons, e0, e1, e2]
    rw [List.filterMap_nil, b64Quads_three]
    simp only [List.cons.injEq, and_true]
    constructor <;> omega
  | case4 b0 b1 b2 rest ih =>
    intro h
    have hb0 : b0 < 256 := h b0 (by simp)
    have hb1 : b1 < 256 := h b1 (by simp)
    have hb2 : b2 < 256 := h b2 (by simp)
    have hrest : ∀ b ∈ rest, b < 256 := fun b hb => h b (by simp [hb])
    have e0 := unbase64_b64Char (b0 / 4) (by omega)
    have e1 := unbase64_b64Char (b0 % 4 * 16 + b1 / 16) (by omega)
    have e2 := unbase64_b64Char (b1 % 16 * 4 + b2 / 64) (by omega)
    have e3 := unbase64_b64Char (b2 % 64) (by omega)
    have n0 := b64Char_ne_pad (b0 / 4) (by omega)
    have n1 := b64Char_ne_pad (b0 % 4 * 16 + b1 / 16) (by omega)
    have n2 := b64Char_ne_pad (b1 % 16 * 4 + b2 / 64) (by omega)
    have n3 := b64Char_ne_pad (b2 % 64) (by omega)
    have ihr := ih hrest
    rw [base64DecodeNode] at ihr ⊢
    rw [base64Encode]
    rw [List.takeWhile_cons_of_pos (by simpa using n0),
      List.takeWhile_cons_of_pos (by simpa using n1),
      List.takeWhile_cons_of_pos (by simpa using n2),
      List.takeWhile_cons_of_pos (by simpa using n3)]
    simp only [List.filterMap_cons, e0, e1, e2, e3]
    rw [b64Quads_cons4]
    rw [ihr]
    have a0 : b0 / 4 * 4 + (b0 % 4 * 16 + b1 / 16) / 16 = b0 := by omega
    have a1 : (b0 % 4 * 16 + b1 / 16) % 16 * 16 + (b1 % 16 * 4 + b2 / 64) / 4 = b1 := by
      omega
    have a2 : (b1 % 16 * 4 + b2 / 64) % 4 * 64 + b2 % 64 = b2 := by omega
    rw [a0, a1, a2]

/-- Every character of a base64 encoding is ASCII. -/
theorem base64Encode_ascii : ∀ bs : List Nat, (∀ b ∈ bs, b < 256) →
    ∀ c ∈ base64Encode bs, c.toNat < 0x80 := by
  intro bs
  induction bs using base64Encode.induct with
  | case1 => intro _ c hc; simp [base64Encode] at hc
  | case2 b0 =>
    intro h c hc
    have hb0 : b0 < 256 := h b0 (by simp)
    rw [base64Encode] at hc
    simp only [List.mem_cons, List.not_mem_nil, or_false] at hc
    rcases hc with rfl | rfl | rfl | rfl
    · exact b64Char_ascii _ (by omega)
    · exact b64Char_ascii _ (by omega)
    · decide
    · decide
  | case3 b0 b1 =>
    intro h c hc
    have hb0 : b0 < 256 := h b0 (by simp)
    have hb1 : b1 < 256 := h b1 (by simp)
    rw [base64Encode] at hc
    simp only [List.mem_cons, List.not_mem_nil, or_false] at hc
    rcases hc with rfl | rfl | rfl | rfl
    · exact b64Char_ascii _ (by omega)
    · exact b64Char_ascii _ (by omega)
    · exact b64Char_ascii _ (by omega)
    · decide
  | case4 b0 b1 b2 rest ih =>
    intro h c hc
    have hb0 : b0 < 256 := h b0 (by simp)
    have hb1 : b1 < 256 := h b1 (by simp)
    have hb2 : b2 < 256 := h b2 (by simp)
    have hrest : ∀ b ∈ rest, b < 256 := fun b hb => h b (by simp [hb])
    rw [base64Encode] at hc
    simp only [List.mem_cons] at hc
    rcases hc with rfl | rfl | rfl | rfl | hc
    · exact b64Char_ascii _ (by omega)
    · exact b64Char_ascii _ (by omega)
    · exact b64Char_ascii _ (by omega)
    · exact b64Char_ascii _ (by omega)
    · exact ih hrest c hc

set_option maxRecDepth 4096 in
/-- Upper-case percent escapes of a byte parse back to that byte. -/
theorem hexPair_hexDigit : ∀ b, b < 256 →
    hexPair (hexDigitUpper (b / 16)) (hexDigitUpper (b % 16)) = some b := by decide

/-- Unreserved URI characters are not the escape character. -/
theorem uriUnreserved_ne_pct (c : Char) (h : uriUnreserved c = true) : ¬ c = '%' :=
  fun hc => by rw [hc] at h; exact absurd h (by decide)

/-- Percent-decoding inverts percent-encoding on ASCII strings, with any
sufficient fuel. -/
theorem decodeURIComponentF_encode (s : List Char) : ∀ fuel : Nat,
    (∀ c ∈ s, c.toNat < 0x80) → (encodeURIComponentL s).length ≤ fuel →
    decodeURIComponentF fuel (encodeURIComponentL s) = some s := by
  induction s with
  | nil =>
    intro fuel _ _
    cases fuel <;> rfl
  | cons c rest ih =>
    intro fuel h hlen
    have hc : c.toNat < 0x80 := h c (by simp)
    have hrest : ∀ x ∈ rest, x.toNat < 0x80 := fun x hx => h x (by simp [hx])
    rw [encodeURIComponentL] at hlen ⊢
    by_cases hu : uriUnreserved c
    · rw [if_pos hu] at hlen ⊢
      rw [List.cons_append, List.nil_append] at hlen ⊢
      rw [List.length_cons] at hlen
      obtain ⟨f, rfl⟩ : ∃ f, fuel = f + 1 := ⟨fuel - 1, by omega⟩
      rw [decodeURIComponentF.eq_def]
      dsimp only
      rw [if_neg (uriUnreserved_ne_pct c hu)]
      rw [ih f hrest (by omega)]
      rfl
    · rw [if_neg hu] at hlen ⊢
      have henc : utf8EncodeChar c.toNat = [c.toNat] := by
        unfold utf8EncodeChar
        rw [if_pos hc]
      rw [henc, pctBytes, pctBytes] at hlen ⊢
      rw [List.cons_append, List.cons_append, List.cons_append, List.nil_append] at hlen ⊢
      simp only [List.length_cons] at hlen
      obtain ⟨f, rfl⟩ : ∃ f, fuel = f + 1 := ⟨fuel - 1, by omega⟩
      rw [decodeURIComponentF.eq_def]
      dsimp only
      rw [if_pos rfl]
      rw [hexPair_hexDigit c.toNat (by omega)]
      dsimp only
      rw [if_pos hc, ih f hrest (by omega)]
      rw [Char.ofNat_toNat]
      rfl

/-- Percent-decoding inverts percent-encoding on ASCII strings. -/
theorem decodeURIComponentL_encode (s : List Char) (h : ∀ c ∈ s, c.toNat < 0x80) :
    decodeURIComponentL (encodeURIComponentL s) = some s :=
  decodeURIComponentF_encode s (encodeURIComponentL s).length h le_rfl

/-- C2: for every valid text `s` (any list of Unicode scalar values),
`decode(encode(s)) = s`, where `encode` is the client-side encoder
(percent-encoding of the base64 of `s`) and `decode` is the pure
function of `libraryFilters.js`; `decode` is its exact inverse. -/
theorem spec_C2 (s : JsStr) : jsDecode (jsEncodeToken s) = some s := by
  rw [jsEncodeToken, jsDecode,
    decodeURIComponentL_encode _ (base64Encode_ascii _ (utf8Encode_lt_256 s)),
    Option.map_some']
  rw [base64DecodeNode_encode _ (utf8Encode_lt_256 s), utf8DecodeReplace_utf8Encode]

/-- C3 counterexample: `"/w=="` is well-formed percent-wise, decodes to
the byte `0xFF`, which is not valid UTF-8 text — yet `decode` returns
the replacement character U+FFFD instead of failing, refuting the claim
that such tokens fail with a `DecodeError`. -/
theorem spec_C3_counterexample :
    base64DecodeNode "/w==".data = [0xFF] ∧
      jsDecode "/w==".data = some [Char.ofNat 0xFFFD] := by
  constructor <;> decide

/-- C3 amended: `decode` fails exactly when percent-decoding of the
token fails (malformed or non-UTF-8 percent escapes); invalid base64
characters are skipped by Node's decoder and non-text bytes are
replaced by U+FFFD, so those tokens still return a value. -/
theorem spec_C3_amended (t : JsStr) :
    (jsDecode t).isSome = (decodeURIComponentL t).isSome := by
  rw [jsDecode]
  cases decodeURIComponentL t <;> rfl

/-- A boolean prefix test expands the string into the prefix plus the
rest. -/
theorem isPrefixOf_eq_append (p : JsStr) : ∀ s : JsStr, p.isPrefixOf s = true →
    s = p ++ s.drop p.length := by
  induction p with
  | nil => intro s _; simp
  | cons a as ih =>
    intro s hp
    cases s with
    | nil => simp [List.isPrefixOf] at hp
    | cons b bs =>
      simp only [List.isPrefixOf, Bool.and_eq_true, beq_iff_eq] at hp
      obtain ⟨rfl, hp⟩ := hp
      simpa [List.length_cons, List.drop_succ_cons] using congrArg (a :: ·) (ih bs hp)

/-- Two prefixes of the same string are prefix-comparable. -/
theorem isPrefixOf_of_le : ∀ (s p1 p2 : JsStr), p1.isPrefixOf s = true →
    p2.isPrefixOf s = true → p1.length ≤ p2.length → p1.isPrefixOf p2 = true := by
  intro s
  induction s with
  | nil =>
    intro p1 p2 h1 h2 _
    cases p1 with
    | nil => cases p2 <;> rfl
    | cons a as => simp [List.isPrefixOf] at h1
  | cons c cs ih =>
    intro p1 p2 h1 h2 hle
    cases p1 with
    | nil => cases p2 <;> rfl
    | cons a as =>
      cases p2 with
      | nil => simp at hle
      | cons b bs =>
        simp only [List.isPrefixOf, Bool.and_eq_true, beq_iff_eq] at h1 h2 ⊢
        obtain ⟨rfl, h1⟩ := h1
        obtain ⟨rfl, h2⟩ := h2
        exact ⟨rfl, ih as bs h1 h2 (by simpa using hle)⟩

/-- No dotted known-group token is a proper prefix of another group's
dotted token (no group name contains a dot and none is a prefix of
another). -/
theorem searchGroups_pair : ∀ g1 ∈ searchGroups, ∀ g2 ∈ searchGroups,
    (g1 ++ ['.']).isPrefixOf (g2 ++ ['.']) = true → g1 = g2 := by decide

/-- At most one known group's dotted prefix matches a given string. -/
theorem searchGroups_unique (g1 g2 : JsStr) (h1 : g1 ∈ searchGroups)
    (h2 : g2 ∈ searchGroups) (fb : JsStr) (hp1 : (g1 ++ ['.']).isPrefixOf fb = true)
    (hp2 : (g2 ++ ['.']).isPrefixOf fb = true) : g1 = g2 := by
  rcases Nat.le_total (g1 ++ ['.']).length (g2 ++ ['.']).length with hle | hle
  · exact searchGroups_pair g1 h1 g2 h2 (isPrefixOf_of_le fb _ _ hp1 hp2 hle)
  · exact (searchGroups_pair g2 h2 g1 h1 (isPrefixOf_of_le fb _ _ hp2 hp1 hle)).symm

/-- Applying `replace(pat, '')` to a string that starts with `pat` strips it. -/
theorem jsReplaceFirst_of_isPrefixOf (pat s : JsStr) (h : pat.isPrefixOf s = true) :
    jsReplaceFirst pat [] s = s.drop pat.length := by
  cases s with
  | nil => rw [jsReplaceFirst, if_pos h, List.drop_nil]
  | cons c rest => rw [jsReplaceFirst, if_pos h, List.nil_append]

/-- C1: classification of `filterBy` in `getFilteredLibraryItems`:
null/empty means no filter; a string starting with `"<g>."` for a known
group `g` yields group `g` and the decode of the rest; anything else is
used verbatim as the group with a null value. -/
theorem spec_C1 :
    (parseFilterBy none = some (none, none) ∧
      parseFilterBy (some []) = some (none, none)) ∧
    (∀ g fb, g ∈ searchGroups → (g ++ ['.']).isPrefixOf fb = true →
      parseFilterBy (some fb) =
        (jsDecode (fb.drop (g.length + 1))).map (fun v => (some g, some v))) ∧
    (∀ fb : JsStr, fb ≠ [] → (∀ g ∈ searchGroups, ¬ (g ++ ['.']).isPrefixOf fb = true) →
      parseFilterBy (some fb) = some (some fb, none)) := by
  refine ⟨⟨rfl, rfl⟩, ?_, ?_⟩
  · intro g fb hg hpre
    have hfb : ¬ fb = [] := by
      intro h
      rw [h] at hpre
      cases g <;> simp [List.isPrefixOf] at hpre
    rw [parseFilterBy]
    rw [if_neg hfb]
    have hfind : searchGroups.find? (fun g' => (g' ++ ['.']).isPrefixOf fb) = some g := by
      cases hf : searchGroups.find? (fun g' => (g' ++ ['.']).isPrefixOf fb) with
      | none =>
        rw [List.find?_eq_none] at hf
        exact absurd hpre (hf g hg)
      | some g0 =>
        have hp0 : (g0 ++ ['.']).isPrefixOf fb = true := by
          simpa using List.find?_some hf
        have hm0 : g0 ∈ searchGroups := List.mem_of_find?_eq_some hf
        rw [searchGroups_unique g0 g hm0 hg fb hp0 hpre]
    rw [hfind]
    dsimp only
    rw [jsReplaceFirst_of_isPrefixOf _ _ hpre]
    have : (g ++ ['.']).length = g.length + 1 := by simp
    rw [this]
  · intro fb hfb hnone
    rw [parseFilterBy]
    rw [if_neg hfb]
    have hfind : searchGroups.find? (fun g' => (g' ++ ['.']).isPrefixOf fb) = none :=
      List.find?_eq_none.mpr (fun g hg => by simpa using hnone g hg)
    rw [hfind]

/-- C1 witness: the spec's own examples, via `spec_C1`:
`parse("genres." + encode("Fantasy"))` yields group `genres` and value
`Fantasy`, and `parse("somecustomfield")` yields the verbatim group with
a null value. -/
theorem spec_C1_witness :
    parseFilterBy (some "genres.RmFudGFzeQ%3D%3D".data) =
        some (some "genres".data, some "Fantasy".data) ∧
      parseFilterBy (some "somecustomfield".data) =
        some (some "somecustomfield".data, none) := by
  constructor
  · have h := spec_C1.2.1 "genres".data "genres.RmFudGFzeQ%3D%3D".data
      (by decide) (by decide)
    rw [h]
    decide
  · have h := spec_C1.2.2 "somecustomfield".data (by decide) (by decide)
    rw [h]

/-- C10: `getFilteredLibraryItems` dispatches to the book strategy
exactly when `options.mediaType` is the string `'book'`; any other value
(including an absent one) goes to the podcast strategy with no error,
and `collapseseries` is forwarded only on the book branch and has no
effect otherwise. -/
theorem spec_C10 :
    (∀ (ext : Externals) (library : Library) (userId : JsStr)
        (options : FilterOptions),
      getFilteredLibraryItems ext library userId options =
        (parseFilterBy options.filterBy).map (fun p =>
          if options.mediaType = some "book".data then
            ext.bookFiltered library.id userId p.1 p.2 options.sortBy
              options.sortDesc options.collapseseries options.incl options.limit
              options.offset
          else
            ext.podcastFiltered library.id userId p.1 p.2 options.sortBy
              options.sortDesc options.incl options.limit options.offset)) ∧
    (∀ (ext : Externals) (library : Library) (userId : JsStr)
        (options : FilterOptions),
      options.mediaType ≠ some "book".data → ∀ c : Bool,
        getFilteredLibraryItems ext library userId
            { options with collapseseries := c } =
          getFilteredLibraryItems ext library userId options) := by
  have main : ∀ (ext : Externals) (library : Library) (userId : JsStr)
      (options : FilterOptions),
      getFilteredLibraryItems ext library userId options =
        (parseFilterBy options.filterBy).map (fun p =>
          if options.mediaType = some "book".data then
            ext.bookFiltered library.id userId p.1 p.2 options.sortBy
              options.sortDesc options.collapseseries options.incl options.limit
              options.offset
          else
            ext.podcastFiltered library.id userId p.1 p.2 options.sortBy
              options.sortDesc options.incl options.limit options.offset) := by
    intro ext library userId options
    rw [getFilteredLibraryItems.eq_def]
    cases hp : parseFilterBy options.filterBy with
    | none => rfl
    | some p =>
      cases p with
      | mk fg fv =>
        dsimp only
        by_cases hm : options.mediaType = some "book".data
        · rw [if_pos hm, Option.map_some', if_pos hm]
        · rw [if_neg hm, Option.map_some', if_neg hm]
  refine ⟨main, ?_⟩
  intro ext library userId options hm c
  rw [main, main]
  simp only [if_neg hm]

/-- C10 witness: a `mediaType` of `'podcast'` routes to the podcast
strategy and dropping or setting `collapseseries` does not change the
result. -/
theorem spec_C10_witness :
    getFilteredLibraryItems {} {} []
        { mediaType := some "podcast".data, collapseseries := true } =
      getFilteredLibraryItems {} {} [] { mediaType := some "podcast".data } :=
  spec_C10.2 {} {} [] { mediaType := some "podcast".data } (by decide) true

/-- Nat comparison is antisymmetric under `Ordering.swap`. -/
theorem natCompare_swap (m n : Nat) : compare m n = (compare n m).swap := by
  rcases Nat.lt_trichotomy m n with h | rfl | h
  · rw [Nat.compare_eq_lt.mpr h, Nat.compare_eq_gt.mpr h]
    rfl
  · rw [Nat.compare_eq_eq.mpr rfl]
    rfl
  · rw [Nat.compare_eq_gt.mpr h, Nat.compare_eq_lt.mpr h]
    rfl

/-- Token comparison is antisymmetric under `Ordering.swap`. -/
theorem tokCmp_swap (x y : Tok) : tokCmp x y = (tokCmp y x).swap := by
  cases x <;> cases y <;> simp only [tokCmp]
  · exact natCompare_swap _ _
  · split <;> rfl
  · split <;> rfl
  · exact natCompare_swap _ _

/-- Token comparison is transitive on strict comparisons. -/
theorem tokCmp_trans_lt (x y z : Tok) (h1 : tokCmp x y = Ordering.lt)
    (h2 : tokCmp y z = Ordering.lt) : tokCmp x z = Ordering.lt := by
  cases x <;> cases y <;> cases z <;>
    simp only [tokCmp] at h1 h2 ⊢ <;>
    (try split_ifs at h1 h2 ⊢) <;>
    first
      | rfl
      | omega
      | (simp_all [Nat.compare_eq_lt, Nat.compare_eq_eq, Nat.compare_eq_gt] <;>
          omega)
      | simp_all [Nat.compare_eq_lt, Nat.compare_eq_eq, Nat.compare_eq_gt]

/-- Token equality under the comparator is transitive. -/
theorem tokCmp_trans_eq (x y z : Tok) (h1 : tokCmp x y = Ordering.eq)
    (h2 : tokCmp y z = Ordering.eq) : tokCmp x z = Ordering.eq := by
  cases x <;> cases y <;> cases z <;>
    simp only [tokCmp] at h1 h2 ⊢ <;>
    (try split_ifs at h1 h2 ⊢) <;>
    first
      | rfl
      | omega
      | (simp_all [Nat.compare_eq_lt, Nat.compare_eq_eq, Nat.compare_eq_gt] <;>
          omega)
      | simp_all [Nat.compare_eq_lt, Nat.compare_eq_eq, Nat.compare_eq_gt]

/-- Comparator-equal tokens compare alike on the left. -/
theorem tokCmp_eq_lt (x y z : Tok) (h1 : tokCmp x y = Ordering.eq)
    (h2 : tokCmp y z = Ordering.lt) : tokCmp x z = Ordering.lt := by
  cases x <;> cases y <;> cases z <;>
    simp only [tokCmp] at h1 h2 ⊢ <;>
    (try split_ifs at h1 h2 ⊢) <;>
    first
      | rfl
      | omega
      | (simp_all [Nat.compare_eq_lt, Nat.compare_eq_eq, Nat.compare_eq_gt] <;>
          omega)
      | simp_all [Nat.compare_eq_lt, Nat.compare_eq_eq, Nat.compare_eq_gt]

/-- Comparator-equal tokens compare alike on the right. -/
theorem tokCmp_lt_eq (x y z : Tok) (h1 : tokCmp x y = Ordering.lt)
    (h2 : tokCmp y z = Ordering.eq) : tokCmp x z = Ordering.lt := by
  cases x <;> cases y <;> cases z <;>
    simp only [tokCmp] at h1 h2 ⊢ <;>
    (try split_ifs at h1 h2 ⊢) <;>
    first
      | rfl
      | omega
      | (simp_all [Nat.compare_eq_lt, Nat.compare_eq_eq, Nat.compare_eq_gt] <;>
          omega)
      | simp_all [Nat.compare_eq_lt, Nat.compare_eq_eq, Nat.compare_eq_gt]

/-- Lexicographic token-list comparison is antisymmetric under
`Ordering.swap`. -/
theorem listCmp_swap : ∀ xs ys : List Tok, listCmp xs ys = (listCmp ys xs).swap := by
  intro xs
  induction xs with
  | nil => intro ys; cases ys <;> rfl
  | cons a as ih =>
    intro ys
    cases ys with
    | nil => rfl
    | cons b bs =>
      rw [listCmp, listCmp, tokCmp_swap a b]
      cases tokCmp b a <;> simp [Ordering.swap, ih bs]

/-- Lexicographic token-list comparison is transitive on non-greater
results. -/
theorem listCmp_le_trans : ∀ xs ys zs : List Tok,
    listCmp xs ys ≠ Ordering.gt → listCmp ys zs ≠ Ordering.gt →
    listCmp xs zs ≠ Ordering.gt := by
  intro xs
  induction xs with
  | nil =>
    intro ys zs _ _
    cases zs <;> simp [listCmp]
  | cons a as ih =>
    intro ys zs h1 h2
    cases ys with
    | nil => exact absurd rfl h1
    | cons b bs =>
      cases zs with
      | nil => exact absurd rfl h2
      | cons c cs =>
        rw [listCmp] at h1 h2 ⊢
        cases hab : tokCmp a b with
        | gt => rw [hab] at h1; exact absurd rfl h1
        | lt =>
          cases hbc : tokCmp b c with
          | gt => rw [hbc] at h2; exact absurd rfl h2
          | lt => rw [tokCmp_trans_lt a b c hab hbc]; simp
          | eq => rw [tokCmp_lt_eq a b c hab hbc]; simp
        | eq =>
          cases hbc : tokCmp b c with
          | gt => rw [hbc] at h2; exact absurd rfl h2
          | lt => rw [tokCmp_eq_lt a b c hab hbc]; simp
          | eq =>
            rw [tokCmp_trans_eq a b c hab hbc]
            rw [hab] at h1
            rw [hbc] at h2
            exact ih bs cs h1 h2

/-- The integer `ordToInt o` is nonpositive exactly on non-greater orderings. -/
theorem ordToInt_le_zero (o : Ordering) : ordToInt o ≤ 0 ↔ o ≠ Ordering.gt := by
  cases o <;> simp [ordToInt]

/-- When both operands are null or empty, the sequence comparator
returns 1 in both argument orders. -/
theorem seqCompare_bothFalsy (a b : Option JsStr) (ha : seqTruthy a = false)
    (hb : seqTruthy b = false) : seqCompare a b = 1 := by
  rw [seqCompare, if_pos ha]

/-- When at least one operand is truthy, the sequence comparator is
antisymmetric in sign. -/
theorem seqCompare_sign_antisym (a b : Option JsStr)
    (h : ¬ (seqTruthy a = false ∧ seqTruthy b = false)) :
    Int.sign (seqCompare a b) = - Int.sign (seqCompare b a) := by
  rw [seqCompare, seqCompare]
  by_cases ha : seqTruthy a = false
  · by_cases hb : seqTruthy b = false
    · exact absurd ⟨ha, hb⟩ h
    · rw [if_pos ha, if_neg hb, if_pos ha]
      rfl
  · by_cases hb : seqTruthy b = false
    · rw [if_neg ha, if_pos hb, if_pos hb]
      rfl
    · rw [if_neg ha, if_neg hb, if_neg hb, if_neg ha]
      rw [localeCompareNB, localeCompareNB, listCmp_swap]
      cases listCmp (natTokens (b.getD [])) (natTokens (a.getD [])) <;> rfl

/-- The sequence comparator is transitive on nonpositive results. -/
theorem seqCompare_le_trans (a b c : Option JsStr) (h1 : seqCompare a b ≤ 0)
    (h2 : seqCompare b c ≤ 0) : seqCompare a c ≤ 0 := by
  rw [seqCompare] at h1 h2 ⊢
  by_cases ha : seqTruthy a = false
  · rw [if_pos ha] at h1
    omega
  · by_cases hb : seqTruthy b = false
    · rw [if_pos hb] at h2
      omega
    · rw [if_neg ha, if_neg hb] at h1
      rw [if_neg hb] at h2
      rw [if_neg ha]
      by_cases hc : seqTruthy c = false
      · rw [if_pos hc]
        omega
      · rw [if_neg hc] at h2 ⊢
        rw [localeCompareNB, ordToInt_le_zero] at h1 h2 ⊢
        exact listCmp_le_trans _ _ _ h1 h2

/-- C7 counterexample: on two null sequences the comparator returns 1 in
both orders, so `compare(a,b)` and `compare(b,a)` are not opposite in
sign (nor both zero) there, refuting the claimed consistency clause. -/
theorem spec_C7_counterexample :
    seqCompare none none = 1 ∧
      ¬ Int.sign (seqCompare none none) = - Int.sign (seqCompare none none) := by
  constructor <;> decide

/-- C7 amended: whenever the two operands are not both null/empty,
`compare(a,b)` and `compare(b,a)` are opposite in sign (zero only
together); transitivity of nonpositive comparisons holds for all
operands; and on two null/empty operands the comparator returns 1 in
both orders. -/
theorem spec_C7_amended :
    (∀ a b : Option JsStr, ¬ (seqTruthy a = false ∧ seqTruthy b = false) →
      Int.sign (seqCompare a b) = - Int.sign (seqCompare b a)) ∧
    (∀ a b c : Option JsStr, seqCompare a b ≤ 0 → seqCompare b c ≤ 0 →
      seqCompare a c ≤ 0) ∧
    (∀ a b : Option JsStr, seqTruthy a = false → seqTruthy b = false →
      seqCompare a b = 1) :=
  ⟨seqCompare_sign_antisym, seqCompare_le_trans, seqCompare_bothFalsy⟩

/-- C7 witness: concrete instances of the amended law, via
`spec_C7_amended`. -/
theorem spec_C7_witness :
    Int.sign (seqCompare (some "a".data) none) =
        - Int.sign (seqCompare none (some "a".data)) ∧
      seqCompare (some "1".data) (some "10".data) ≤ 0 :=
  ⟨spec_C7_amended.1 (some "a".data) none (by decide),
    spec_C7_amended.2.1 (some "1".data) (some "2".data) (some "10".data)
      (by decide) (by decide)⟩

/-- A falsy left operand makes the sequence comparator return 1. -/
theorem seqCompare_falsy_left (a b : Option JsStr) (ha : seqTruthy a = false) :
    seqCompare a b = 1 := by
  rw [seqCompare, if_pos ha]

/-- A truthy left and falsy right operand make the comparator return -1. -/
theorem seqCompare_falsy_right (a b : Option JsStr) (ha : ¬ seqTruthy a = false)
    (hb : seqTruthy b = false) : seqCompare a b = -1 := by
  rw [seqCompare, if_neg ha, if_pos hb]

/-- A nonpositive comparison forces the left operand to be truthy. -/
theorem seqCompare_le_truthy (a b : Option JsStr) (h : seqCompare a b ≤ 0) :
    ¬ seqTruthy a = false := by
  intro ha
  rw [seqCompare_falsy_left a b ha] at h
  omega

/-- Rows the comparator does not place in order are related the other
way around (or both have falsy sequences). -/
theorem bsR_of_not_le (x y : BSRow) (h : ¬ bsCompare x y ≤ 0) : bsOrderedRel y x := by
  rw [bsCompare] at h
  by_cases ha : seqTruthy x.sequence = false
  · by_cases hb : seqTruthy y.sequence = false
    · exact Or.inr ⟨hb, ha⟩
    · exact Or.inl (by rw [seqCompare_falsy_right _ _ hb ha]; omega)
  · by_cases hb : seqTruthy y.sequence = false
    · exact absurd (by rw [seqCompare_falsy_right _ _ ha hb]; omega) h
    · left
      rw [seqCompare, if_neg ha, if_neg hb, localeCompareNB] at h
      rw [seqCompare, if_neg hb, if_neg ha, localeCompareNB, listCmp_swap]
      cases hcase : listCmp (natTokens (x.sequence.getD []))
          (natTokens (y.sequence.getD [])) with
      | lt => exact absurd (by rw [hcase]; decide) h
      | eq => exact absurd (by rw [hcase]; decide) h
      | gt => decide

/-- Rows the comparator places in order are related. -/
theorem bsR_of_le (x y : BSRow) (h : bsCompare x y ≤ 0) : bsOrderedRel x y :=
  Or.inl h

/-- The shelved-order relation on `bookSeries` rows is transitive. -/
theorem bsR_trans (x y z : BSRow) (h1 : bsOrderedRel x y) (h2 : bsOrderedRel y z) :
    bsOrderedRel x z := by
  rcases h1 with h1 | ⟨hx, hy⟩
  · rcases h2 with h2 | ⟨hy, hz⟩
    · exact Or.inl (seqCompare_le_trans _ _ _ h1 h2)
    · exact Or.inl (seqCompare_falsy_right _ _ (seqCompare_le_truthy _ _ h1) hz ▸
        (by omega))
  · rcases h2 with h2 | ⟨hy2, hz⟩
    · exact absurd h2 (by rw [seqCompare_falsy_left _ _ hy]; omega)
    · exact Or.inr ⟨hx, hz⟩

/-- Membership in a stable insertion. -/
theorem mem_jsInsert {α : Type} (cmp : α → α → Int) (x z : α) :
    ∀ l : List α, z ∈ jsInsert cmp x l ↔ z = x ∨ z ∈ l := by
  intro l
  induction l with
  | nil => simp [jsInsert]
  | cons y ys ih =>
    rw [jsInsert]
    by_cases h : cmp x y ≤ 0
    · rw [if_pos h]
      simp [List.mem_cons]
    · rw [if_neg h]
      simp [List.mem_cons, ih]
      tauto

/-- Stable insertion permutes consing. -/
theorem perm_jsInsert {α : Type} (cmp : α → α → Int) (x : α) :
    ∀ l : List α, (jsInsert cmp x l).Perm (x :: l) := by
  intro l
  induction l with
  | nil => exact List.Perm.refl _
  | cons y ys ih =>
    rw [jsInsert]
    by_cases h : cmp x y ≤ 0
    · rw [if_pos h]
    · rw [if_neg h]
      exact List.Perm.trans (List.Perm.cons y ih) (List.Perm.swap x y ys)

/-- The stable sort permutes its input. -/
theorem perm_jsSortStable {α : Type} (cmp : α → α → Int) :
    ∀ l : List α, (jsSortStable cmp l).Perm l := by
  intro l
  induction l with
  | nil => exact List.Perm.refl _
  | cons x xs ih =>
    rw [jsSortStable]
    exact List.Perm.trans (perm_jsInsert cmp x (jsSortStable cmp xs))
      (List.Perm.cons x ih)

/-- Inserting into a correctly shelved list keeps it correctly shelved. -/
theorem pairwise_jsInsert_bs (x : BSRow) : ∀ l : List BSRow,
    l.Pairwise bsOrderedRel → (jsInsert bsCompare x l).Pairwise bsOrderedRel := by
  intro l
  induction l with
  | nil => intro _; simp [jsInsert]
  | cons y ys ih =>
    intro h
    rw [List.pairwise_cons] at h
    obtain ⟨hy, hys⟩ := h
    rw [jsInsert]
    by_cases hc : bsCompare x y ≤ 0
    · rw [if_pos hc, List.pairwise_cons]
      refine ⟨?_, List.pairwise_cons.mpr ⟨hy, hys⟩⟩
      intro z hz
      rcases List.mem_cons.mp hz with rfl | hz'
      · exact bsR_of_le x z hc
      · exact bsR_trans x y z (bsR_of_le x y hc) (hy z hz')
    · rw [if_neg hc, List.pairwise_cons]
      refine ⟨?_, ih hys⟩
      intro z hz
      rcases (mem_jsInsert bsCompare x z ys).mp hz with rfl | hz'
      · exact bsR_of_not_le z y hc
      · exact hy z hz'

/-- The stable sort by the sequence comparator produces a correctly
shelved list: every pair is either in comparator order or both falsy. -/
theorem pairwise_jsSortStable_bs (l : List BSRow) :
    (jsSortStable bsCompare l).Pairwise bsOrderedRel := by
  induction l with
  | nil => simp [jsSortStable]
  | cons x xs ih =>
    rw [jsSortStable]
    exact pairwise_jsInsert_bs x _ ih

/-- A successful `mapM` over `assembleBook` yields exactly the book
projections and the mutated rows, in order. -/
theorem mapM_assembleBook_extract (ext : Externals) : ∀ (l : List BSRow)
    (pairs : List (OldItem × BSRow)), List.mapM (assembleBook ext) l = some pairs →
    pairs.map Prod.fst = l.map (assembledBookProj ext) ∧
    pairs.map Prod.snd = l.map mutatedBSRow := by
  intro l
  induction l with
  | nil =>
    intro pairs h
    rw [List.mapM_nil] at h
    cases h
    exact ⟨rfl, rfl⟩
  | cons bs rest ih =>
    intro pairs h
    rw [List.mapM_cons] at h
    cases hb : assembleBook ext bs with
    | none => rw [hb] at h; simp at h
    | some p =>
      rw [hb] at h
      cases hr : List.mapM (assembleBook ext) rest with
      | none => rw [hr] at h; simp at h
      | some ps =>
        rw [hr] at h
        simp only [Option.bind_eq_bind, Option.some_bind, Option.pure_def,
          Option.some.injEq] at h
        subst h
        obtain ⟨ih1, ih2⟩ := ih ps hr
        cases hli : bs.book.libraryItem with
        | none => rw [assembleBook, hli] at hb; simp at hb
        | some li =>
          rw [assembleBook, hli] at hb
          simp only [Option.some.injEq] at hb
          subst hb
          constructor
          · rw [List.map_cons, List.map_cons, ih1]
            rw [assembledBookProj, hli]
            rfl
          · rw [List.map_cons, List.map_cons, ih2]
            rfl

/-- A successful `assembleSeries` yields the sorted book projections and
the mutated stored row. -/
theorem assembleSeries_extract (ext : Externals) (s : SeriesRow)
    (os : OldSeries) (s2 : SeriesRow) (h : assembleSeries ext s = some (os, s2)) :
    os.books = (jsSortStable bsCompare s.bookSeries).map (assembledBookProj ext) ∧
    s2 = mutatedSeriesRow s := by
  rw [assembleSeries] at h
  cases hm : List.mapM (assembleBook ext) (jsSortStable bsCompare s.bookSeries) with
  | none => rw [hm] at h; simp at h
  | some pairs =>
    rw [hm] at h
    simp only [Option.some.injEq, Prod.mk.injEq] at h
    obtain ⟨hos, hs2⟩ := h
    obtain ⟨he1, he2⟩ := mapM_assembleBook_extract ext _ pairs hm
    constructor
    · rw [← hos]
      exact he1
    · rw [← hs2, mutatedSeriesRow, ← he2]

/-- A successful series shelf call yields, per stored series, the sorted
book projections in the result and the mutated row in the final state. -/
theorem getSeries_extract (ext : Externals) : ∀ (rows : List SeriesRow) (count : Nat)
    (out : (List OldSeries × Nat) × List SeriesRow),
    getSeriesMostRecentlyAdded ext rows count = some out →
    out.1.1.map OldSeries.books =
      rows.map (fun s => (jsSortStable bsCompare s.bookSeries).map (assembledBookProj ext)) ∧
    out.2 = rows.map mutatedSeriesRow ∧ out.1.2 = count := by
  intro rows
  induction rows with
  | nil =>
    intro count out h
    rw [getSeriesMostRecentlyAdded, List.mapM_nil] at h
    cases h
    exact ⟨rfl, rfl, rfl⟩
  | cons s rest ih =>
    intro count out h
    rw [getSeriesMostRecentlyAdded, List.mapM_cons] at h
    cases hs : assembleSeries ext s with
    | none => rw [hs] at h; simp at h
    | some p =>
      rw [hs] at h
      cases hr : List.mapM (assembleSeries ext) rest with
      | none => rw [hr] at h; simp at h
      | some ps =>
        rw [hr] at h
        simp only [Option.bind_eq_bind, Option.some_bind, Option.pure_def,
          Option.some.injEq] at h
        subst h
        obtain ⟨hb, hrow⟩ := assembleSeries_extract ext s p.1 p.2 (by
          rw [hs])
        have ihh := ih count ((ps.map Prod.fst, count), ps.map Prod.snd) (by
          rw [getSeriesMostRecentlyAdded, hr])
        refine ⟨?_, ?_, rfl⟩
        · simp only [List.map_cons]
          rw [← hb]
          exact congrArg (OldSeries.books p.1 :: ·) ihh.1
        · simp only [List.map_cons]
          rw [← hrow]
          exact congrArg (p.2 :: ·) ihh.2.1

/-- Attaching the feed never modifies the media payload. -/
theorem enrichFeed_media (ext : Externals) (li : LIRow) (old : OldItem) :
    (enrichFeed ext li old).media = old.media := by
  cases h : li.rssFeed <;> simp [enrichFeed, h]

/-- The size fallback yields the storage size exactly when the latter is
truthy and the media size is not. -/
theorem sizeFallback_size (li : LIRow) (old : OldItem) :
    (sizeFallback li old).media.size =
      if jsNumTruthy li.size && !jsNumTruthy old.media.size then li.size
      else old.media.size := by
  rw [sizeFallback]
  split <;> rfl

/-- Attaching the series annotation never modifies the media size. -/
theorem seriesAttach_size (li : LIRow) (old : OldItem) :
    (seriesAttach li old).media.size = old.media.size := by
  cases h : li.series <;> simp [seriesAttach, h]

/-- C4: on every library whose `mediaType` is not `'book'`, the
in-progress shelf returns `{libraryItems: [], count: 0}` for any value
of the `ebook` flag; the result is the same for every `Externals`
instance, i.e. no storage query is consulted. -/
theorem spec_C4 (ext : Externals) (library : Library) (userId : JsStr)
    (incl : List JsStr) (limit : Nat) (ebook : Bool)
    (h : library.mediaType ≠ "book".data) :
    getLibraryItemsInProgress ext library userId incl limit ebook =
      { libraryItems := [], count := 0 } := by
  simp only [getLibraryItemsInProgress]
  rw [if_neg h]

/-- C4 witness: a podcast library with arbitrary externals and
`ebook = true`, via `spec_C4`. -/
theorem spec_C4_witness :
    getLibraryItemsInProgress {} exPodLib [] [] 5 true =
      { libraryItems := [], count := 0 } :=
  spec_C4 {} exPodLib [] [] 5 true (by decide)

/-- C5 counterexample: on a podcast library the continue-series shelf
still runs the book strategy's continue-series query and returns its
result (here 7 matches), not the empty result the claim requires. -/
theorem spec_C5_counterexample :
    getLibraryItemsContinueSeries exC5Ext exPodLib [] [] 5 =
        { libraryItems := [], count := 7 } ∧
      getLibraryItemsContinueSeries exC5Ext exPodLib [] [] 5 ≠
        { libraryItems := [], count := 0 } := by
  constructor <;> decide

/-- C5 amended: `getLibraryItemsContinueSeries` has no media-type guard:
for every library it delegates to the book strategy's continue-series
query and returns its enriched rows, and the result depends on the
library only through its id. -/
theorem spec_C5_amended :
    (∀ (ext : Externals) (library : Library) (userId : JsStr) (incl : List JsStr)
        (limit : Nat),
      getLibraryItemsContinueSeries ext library userId incl limit =
        { libraryItems :=
            (ext.bookContinueSeries library.id userId incl limit 0).libraryItems.map
              (fun li => seriesAttach li (enrichFeed ext li (ext.minify li))),
          count := (ext.bookContinueSeries library.id userId incl limit 0).count }) ∧
    (∀ (ext : Externals) (lib1 lib2 : Library) (userId : JsStr) (incl : List JsStr)
        (limit : Nat), lib1.id = lib2.id →
      getLibraryItemsContinueSeries ext lib1 userId incl limit =
        getLibraryItemsContinueSeries ext lib2 userId incl limit) := by
  constructor
  · intro ext library userId incl limit
    rfl
  · intro ext lib1 lib2 userId incl limit hid
    simp only [getLibraryItemsContinueSeries, hid]

/-- C5 witness: a podcast library and a book library with the same id
get the same continue-series result, via `spec_C5_amended`. -/
theorem spec_C5_witness :
    getLibraryItemsContinueSeries exC5Ext exPodLib "u".data [] 5 =
      getLibraryItemsContinueSeries exC5Ext { id := 2, mediaType := "book".data }
        "u".data [] 5 :=
  spec_C5_amended.2 exC5Ext exPodLib { id := 2, mediaType := "book".data }
    "u".data [] 5 (by decide)

/-- C8 counterexample: the in-progress shelf does not apply the size
fallback: the storage row carries size 5, the minified media has no
size, and the assembled item still has no media size. -/
theorem spec_C8_counterexample :
    (exC8Ext.bookFiltered 1 [] (some "progress".data)
        (some "audio-in-progress".data) (some "progress".data) true false []
        5 0).libraryItems.map LIRow.size = [some 5] ∧
      (getLibraryItemsInProgress exC8Ext exBookLib [] [] 5 false).libraryItems.map
        (fun o => o.media.size) = [none] := by
  constructor <;> decide

/-- C8 amended: only `getLibraryItemsMostRecentlyAdded` (on both its
branches) applies the storage-size fallback; the in-progress and
continue-series shelves return the minified media size untouched. -/
theorem spec_C8_amended (ext : Externals) (library : Library) (userId : JsStr)
    (incl : List JsStr) (limit : Nat) (ebook : Bool) :
    (library.mediaType = "book".data →
      (getLibraryItemsMostRecentlyAdded ext library userId incl limit).libraryItems.map
          (fun o => o.media.size) =
        (ext.bookFiltered library.id userId none none (some "addedAt".data) true
            false incl limit 0).libraryItems.map (fallbackSizeVal ext)) ∧
    (library.mediaType ≠ "book".data →
      (getLibraryItemsMostRecentlyAdded ext library userId incl limit).libraryItems.map
          (fun o => o.media.size) =
        (ext.podcastFiltered library.id userId none none (some "addedAt".data) true
            incl limit 0).libraryItems.map (fallbackSizeVal ext)) ∧
    (library.mediaType = "book".data →
      (getLibraryItemsInProgress ext library userId incl limit ebook).libraryItems.map
          (fun o => o.media.size) =
        (ext.bookFiltered library.id userId (some "progress".data)
            (some (if ebook then "ebook-in-progress".data else "audio-in-progress".data))
            (some "progress".data) true false incl limit 0).libraryItems.map
          (fun li => (ext.minify li).media.size)) ∧
    ((getLibraryItemsContinueSeries ext library userId incl limit).libraryItems.map
        (fun o => o.media.size) =
      (ext.bookContinueSeries library.id userId incl limit 0).libraryItems.map
        (fun li => (ext.minify li).media.size)) := by
  refine ⟨?_, ?_, ?_, ?_⟩
  · intro h
    simp only [getLibraryItemsMostRecentlyAdded, if_pos h]
    rw [List.map_map]
    congr 1
    funext li
    simp only [Function.comp]
    rw [sizeFallback_size, enrichFeed_media, fallbackSizeVal]
  · intro h
    simp only [getLibraryItemsMostRecentlyAdded, if_neg h]
    rw [List.map_map]
    congr 1
    funext li
    simp only [Function.comp]
    rw [sizeFallback_size, enrichFeed_media, fallbackSizeVal]
  · intro h
    simp only [getLibraryItemsInProgress, if_pos h]
    rw [List.map_map]
    congr 1
    funext li
    simp only [Function.comp]
    rw [enrichFeed_media]
  · simp only [getLibraryItemsContinueSeries]
    rw [List.map_map]
    congr 1
    funext li
    simp only [Function.comp]
    rw [seriesAttach_size, enrichFeed_media]

/-- C8 witness: the most-recently-added shelf on a book library with the
concrete externals does apply the size fallback, via `spec_C8_amended`. -/
theorem spec_C8_witness :
    (getLibraryItemsMostRecentlyAdded exC8Ext exBookLib [] [] 5).libraryItems.map
        (fun o => o.media.size) =
      (exC8Ext.bookFiltered exBookLib.id [] none none (some "addedAt".data) true
          false [] 5 0).libraryItems.map (fallbackSizeVal exC8Ext) :=
  (spec_C8_amended exC8Ext exBookLib [] [] 5 false).1 (by decide)

/-- C9 counterexample: after `getSeriesMostRecentlyAdded` runs on a
loaded series whose two books carry `libraryItem` payloads 7 and 8, the
loaded book records have lost their `libraryItem` association (and the
`bookSeries` rows were reordered in place), refuting the claim that
storage entities are left unchanged. -/
theorem spec_C9_counterexample :
    exC9Rows.map (fun s => s.bookSeries.map (fun bs => bs.book.libraryItem)) =
        [[some 7, some 8]] ∧
      (getSeriesMostRecentlyAdded exSeriesExt exC9Rows 1).map
          (fun out => out.2.map (fun s => s.bookSeries.map
            (fun bs => bs.book.libraryItem))) = some [[none, none]] := by
  constructor <;> decide

/-- C9 amended: `getSeriesMostRecentlyAdded` mutates the loaded rows in
a precisely delimited way: each series' `bookSeries` is sorted in place
by the sequence comparator and every book's `libraryItem` association is
deleted; all other stored fields are unchanged. -/
theorem spec_C9_amended (ext : Externals) (rows : List SeriesRow) (count : Nat)
    (out : (List OldSeries × Nat) × List SeriesRow)
    (h : getSeriesMostRecentlyAdded ext rows count = some out) :
    out.2 = rows.map mutatedSeriesRow :=
  (getSeries_extract ext rows count out h).2.1

/-- C9 witness: the concrete example, via `spec_C9_amended`. -/
theorem spec_C9_witness : exSeriesOut.2 = exC9Rows.map mutatedSeriesRow :=
  spec_C9_amended exSeriesExt exC9Rows 1 exSeriesOut (by decide)

/-- C6: in every successful result of `getSeriesMostRecentlyAdded`, each
series' books are the projections of its `bookSeries` rows sorted by the
sequence comparator — a permutation of the loaded rows in which falsy
sequences come strictly after truthy ones and truthy sequences are in
nondecreasing numeric-aware order — and sorting
`["3","1","10",null]` ascending yields `["1","3","10",null]`. -/
theorem spec_C6 :
    (∀ (ext : Externals) (rows : List SeriesRow) (count : Nat)
        (out : (List OldSeries × Nat) × List SeriesRow),
      getSeriesMostRecentlyAdded ext rows count = some out →
        (∀ s ∈ rows, (jsSortStable bsCompare s.bookSeries).Pairwise bsOrderedRel ∧
          (jsSortStable bsCompare s.bookSeries).Perm s.bookSeries) ∧
        out.1.1.map OldSeries.books =
          rows.map (fun s =>
            (jsSortStable bsCompare s.bookSeries).map (assembledBookProj ext))) ∧
    jsSortStable seqCompare [some "3".data, some "1".data, some "10".data, none] =
      [some "1".data, some "3".data, some "10".data, none] := by
  constructor
  · intro ext rows count out h
    exact ⟨fun s _ => ⟨pairwise_jsSortStable_bs s.bookSeries,
        perm_jsSortStable bsCompare s.bookSeries⟩,
      (getSeries_extract ext rows count out h).1⟩
  · decide

/-- C6 witness: the concrete series with sequences "2","1" comes back
with its books sorted "1","2", via `spec_C6`. -/
theorem spec_C6_witness :
    exSeriesOut.1.1.map OldSeries.books =
      exC9Rows.map (fun s =>
        (jsSortStable bsCompare s.bookSeries).map (assembledBookProj exSeriesExt)) :=
  (spec_C6.1 exSeriesExt exC9Rows 1 exSeriesOut (by decide)).2
